import Mathlib

/-!
Shallow embedding of the frost-prediction data pipeline
(download/station_data.py and process_data/merge_data.py) together with
theorems checking the specification claims about record normalization,
per-station aggregation, date-range chunking, and the two-provenance
reconciliation of station files.
-/

/-! ## Python string primitives used by the scripts -/

/-- Python str.strip: remove leading and trailing whitespace. -/
def pyStrip (s : String) : String :=
  String.mk (((s.toList.dropWhile Char.isWhitespace).reverse.dropWhile Char.isWhitespace).reverse)

/-- Python s.split(sep)[0]: the part of the string before the first
occurrence of the separator character. -/
def beforeFirst (sep : Char) (s : String) : String :=
  String.mk (s.toList.takeWhile (fun c => c ≠ sep))

/-- Helper for pySplit: accumulate the current piece while scanning. -/
def pySplitAux (sep : Char) : List Char → List Char → List String
  | [], acc => [String.mk acc.reverse]
  | c :: cs, acc =>
    if c = sep then String.mk acc.reverse :: pySplitAux sep cs []
    else pySplitAux sep cs (c :: acc)

/-- Python s.split(sep): split at every occurrence of the separator,
keeping empty pieces. -/
def pySplit (sep : Char) (s : String) : List String :=
  pySplitAux sep s.toList []

/-- Python str.capitalize: first character upper-cased, the rest lower-cased. -/
def pyCapitalize (s : String) : String :=
  match s.toList with
  | [] => ""
  | c :: cs => String.mk (c.toUpper :: cs.map Char.toLower)

/-- Boolean lexicographic strict order on character lists, by character code. -/
def lexLt : List Char → List Char → Bool
  | [], [] => false
  | [], _ :: _ => true
  | _ :: _, [] => false
  | a :: as, b :: bs =>
    if a.toNat < b.toNat then true
    else if b.toNat < a.toNat then false
    else lexLt as bs

/-- Boolean lexicographic order on character lists, by character code. -/
def lexLe : List Char → List Char → Bool
  | [], _ => true
  | _ :: _, [] => false
  | a :: as, b :: bs =>
    if a.toNat < b.toNat then true
    else if b.toNat < a.toNat then false
    else lexLe as bs

/-- Strict string order by character code (the order pandas uses when
sorting a string column). -/
def strLt (a b : String) : Bool := lexLt a.toList b.toList

/-- String order by character code. -/
def strLe (a b : String) : Bool := lexLe a.toList b.toList

/-! ## download/station_data.py: configuration and record normalization -/

/-- The ten configured CIMIS hourly data item codes (station_data.py,
DATA_ITEMS, lines 26-37). -/
def DATA_ITEMS : List String :=
  ["hly-asce-eto", "hly-precip", "hly-sol-rad", "hly-vap-pres", "hly-air-tmp",
   "hly-rel-hum", "hly-dew-pnt", "hly-wind-spd", "hly-wind-dir", "hly-soil-tmp"]

/-- station_data.py line 44: maximum number of days per request window. -/
def CHUNK_DAYS : Nat := 60

/-- station_data.py line 77: the provider JSON field key derived from an
item code by splitting on the dash and capitalizing each piece. -/
def json_key (item : String) : String :=
  String.join ((pySplit '-' item).map pyCapitalize)

/-- The static mapping from canonical variable identifiers to provider field
keys that the spec prescribes in place of the runtime derivation (spec
sections 4.3 and 9); written out explicitly, for comparison with json_key. -/
def staticFieldKeyTable : List (String × String) :=
  [("hly-asce-eto", "HlyAsceEto"), ("hly-precip", "HlyPrecip"),
   ("hly-sol-rad", "HlySolRad"), ("hly-vap-pres", "HlyVapPres"),
   ("hly-air-tmp", "HlyAirTmp"), ("hly-rel-hum", "HlyRelHum"),
   ("hly-dew-pnt", "HlyDewPnt"), ("hly-wind-spd", "HlyWindSpd"),
   ("hly-wind-dir", "HlyWindDir"), ("hly-soil-tmp", "HlySoilTmp")]

/-- The value of a digit string, most significant digit first. -/
def digitsVal (cs : List Char) : Nat :=
  cs.foldl (fun a c => 10 * a + (c.toNat - 48)) 0

/-- Exponent tail of a decimal literal: optional sign then at least one digit. -/
def parseExpTail (base : Rat) (cs : List Char) : Option Rat :=
  let p :=
    match cs with
    | '+' :: r => ((1 : Int), r)
    | '-' :: r => ((-1 : Int), r)
    | r => ((1 : Int), r)
  if p.2 ≠ [] ∧ p.2.all Char.isDigit then
    some (if p.1 = 1 then base * 10 ^ digitsVal p.2 else base / 10 ^ digitsVal p.2)
  else none

/-- Mantissa with optional fraction and exponent of a decimal literal. -/
def parseMantissa (cs : List Char) : Option Rat :=
  let ip := cs.takeWhile Char.isDigit
  let rest := cs.dropWhile Char.isDigit
  match rest with
  | [] => if ip = [] then none else some (digitsVal ip)
  | '.' :: r2 =>
    let fp := r2.takeWhile Char.isDigit
    let r3 := r2.dropWhile Char.isDigit
    if ip = [] ∧ fp = [] then none
    else
      match r3 with
      | [] => some ((digitsVal ip : Rat) + (digitsVal fp : Rat) / 10 ^ fp.length)
      | 'e' :: r4 => parseExpTail ((digitsVal ip : Rat) + (digitsVal fp : Rat) / 10 ^ fp.length) r4
      | 'E' :: r4 => parseExpTail ((digitsVal ip : Rat) + (digitsVal fp : Rat) / 10 ^ fp.length) r4
      | _ => none
  | 'e' :: r4 => if ip = [] then none else parseExpTail (digitsVal ip) r4
  | 'E' :: r4 => if ip = [] then none else parseExpTail (digitsVal ip) r4
  | _ => none

/-- Signed decimal literal over a character list. -/
def pyFloatChars : List Char → Option Rat
  | [] => none
  | '+' :: cs => parseMantissa cs
  | '-' :: cs => (parseMantissa cs).map (fun q => -q)
  | cs => parseMantissa cs

/-- Python float(s) on decimal literals: surrounding whitespace is ignored,
then an optional sign, digits with optional fraction and exponent; any other
shape fails (ValueError, modelled as none). -/
def pyFloat (s : String) : Option Rat :=
  pyFloatChars (pyStrip s).toList

/-- station_data.py lines 83-91: extract the numeric value of one data
field. The Python code checks truthiness of the raw string and membership
of its stripped form in the sentinel list, then converts with float,
mapping ValueError to NaN; NaN is modelled as none. -/
def extractValue (v : Option String) : Option Rat :=
  match v with
  | none => none
  | some s =>
    if s ≠ "" ∧ pyStrip s ∉ (["M", "---", "####"] : List String) then pyFloat s
    else none

/-- station_data.py lines 94-99: extract the QC code of one data field:
the stripped QC string when present, the empty string when absent. -/
def extractQc (q : Option String) : String :=
  match q with
  | some s => pyStrip s
  | none => ""

/-- One per-variable field of a raw provider record: the raw value string
and the raw QC string, each possibly absent. -/
structure DataField where
  value : Option String
  qc : Option String
  deriving DecidableEq, Repr

/-- The (value, qc) pair extracted from one present data field
(station_data.py lines 82-99). -/
def extractPair (df : DataField) : Option Rat × String :=
  (extractValue df.value, extractQc df.qc)

/-- A raw provider record: date, hour and station strings as delivered
(possibly absent), plus the named per-variable data fields. -/
structure RawRecord where
  date : Option String
  hour : Option String
  station : Option String
  fields : List (String × DataField)
  deriving DecidableEq, Repr

/-- One normalized output row as built by station_data.py lines 68-103:
the original date, hour and station strings, plus per-item value and QC
columns. -/
structure Row where
  date : Option String
  hour : Option String
  station : Option String
  vals : List (String × Option Rat)
  qcs : List (String × String)
  deriving DecidableEq, Repr

/-- station_data.py lines 68-103: build one row from a raw record. Date,
Hour and StationId are kept as the original strings; for each configured
item the value and QC are extracted from the field named by json_key, or
null and the empty string when that field is absent from the record. -/
def processRecord (r : RawRecord) : Row :=
  ⟨r.date, r.hour, r.station,
   DATA_ITEMS.map (fun item =>
     (item, match r.fields.lookup (json_key item) with
            | some df => extractValue df.value
            | none => none)),
   DATA_ITEMS.map (fun item =>
     (item, match r.fields.lookup (json_key item) with
            | some df => extractQc df.qc
            | none => ""))⟩

/-- station_data.py lines 67-105: the record loop appends one row per raw
record; no record is ever dropped. -/
def processRecords (rs : List RawRecord) : List Row :=
  rs.map processRecord

/-! ## download/station_data.py: fetch outcomes and the per-station loop -/

/-- Outcome of one HTTP request in fetch_cimis_data: the caught exception
kinds of lines 112-119 (request error, non-2xx status, undecodable JSON),
a payload missing the nested records structure (line 108), or a payload
carrying records (line 63). -/
inductive FetchResponse where
  | networkError
  | serverError
  | badJson
  | missingStructure
  | ok (records : List RawRecord)

/-- Whether a response is one of the contained failure outcomes. -/
def isFailure : FetchResponse → Bool
  | .networkError => true
  | .serverError => true
  | .badJson => true
  | .missingStructure => true
  | .ok _ => false

/-- fetch_cimis_data for one (station, chunk) request, over a stream of
would-be responses to successive request attempts: the code issues exactly
one request (attempt 0, line 59); every caught error and a missing
structure return an empty record set (lines 108-121); there is no retry
loop. Returns the rows together with the number of attempts issued. -/
def fetchChunk (responses : Nat → FetchResponse) : List Row × Nat :=
  match responses 0 with
  | .ok recs => (processRecords recs, 1)
  | _ => ([], 1)

/-- station_data.py lines 195-220: per-station accumulation across chunks.
A chunk result is appended only when non-empty (line 213) and the station
data is the concatenation of the appended chunk results (line 220). -/
def stationRows (streams : List (Nat → FetchResponse)) : List Row :=
  ((streams.map (fun s => (fetchChunk s).1)).filter (fun l => !l.isEmpty)).flatten

/-! ## download/station_data.py: per-station aggregation and sorting -/

/-- The sort key of sort_values(by=["Date", "Hour"]) (line 231). -/
def rowKey (r : Row) : Option String × Option String :=
  (r.date, r.hour)

/-- Order on an optional string column entry as pandas sorts it: missing
entries are placed last. -/
def optStrLe (a b : Option String) : Bool :=
  match a, b with
  | some x, some y => strLe x y
  | some _, none => true
  | none, none => true
  | none, some _ => false

/-- Strict order on an optional string column entry, missing entries last. -/
def optStrLt (a b : Option String) : Bool :=
  match a, b with
  | some x, some y => strLt x y
  | some _, none => true
  | none, _ => false

/-- Row order used by sort_values(by=["Date", "Hour"]): lexicographic on
the (Date, Hour) string pair. -/
def rowLe (a b : Row) : Bool :=
  if a.date = b.date then optStrLe a.hour b.hour else optStrLt a.date b.date

/-- Strict row order on the (Date, Hour) string pair. -/
def rowLt (a b : Row) : Bool :=
  if a.date = b.date then optStrLt a.hour b.hour else optStrLt a.date b.date

/-- Insert a row into a sorted list of rows. -/
def insertRow (r : Row) : List Row → List Row
  | [] => [r]
  | x :: xs => if rowLe r x then r :: x :: xs else x :: insertRow r xs

/-- Sort rows by the (Date, Hour) key. Models sort_values at line 231: any
correct sort produces a sorted permutation of its input, which is all the
theorems below rely on. -/
def sortRows : List Row → List Row
  | [] => []
  | r :: rs => insertRow r (sortRows rs)

/-- station_data.py lines 219-231: concatenate the chunk results of one
station and sort by the (Date, Hour) string pair. No duplicate-timestamp
removal is performed. (The metadata merge of lines 223-228 attaches the
station name and coordinate columns and is not modelled here.) -/
def aggregate (css : List (List Row)) : List Row :=
  sortRows css.flatten

/-! ## download/station_data.py: the date-range chunking loop -/

/-- Fuel-indexed unfolding of the chunking while-loop of lines 207-216,
dates modelled as integer day numbers: each window starts at the current
date and ends d - 1 days later, truncated to the end date; the next window
starts the day after the current window ends. -/
def chunksFuel (d : Nat) (e : Int) : Nat → Int → List (Int × Int)
  | 0, _ => []
  | fuel + 1, s =>
    if s ≤ e then
      (s, min (s + d - 1) e) :: chunksFuel d e fuel (min (s + d - 1) e + 1)
    else []

/-- The chunk sequence for the inclusive range [s, e] with window size d.
The fuel (e + 1 - s).toNat bounds the iteration count whenever d ≥ 1. -/
def chunks (s e : Int) (d : Nat) : List (Int × Int) :=
  chunksFuel d e (e + 1 - s).toNat s

/-! ## process_data/merge_data.py: two-provenance reconciliation -/

/-- A file, given by its directory and its base filename. -/
structure SrcFile where
  dir : String
  base : String
  deriving DecidableEq, Repr

/-- One copy performed by remove_duplicate: the source file and the base
name it is written under in the output directory. -/
structure CopyOp where
  src : SrcFile
  destBase : String
  deriving DecidableEq, Repr

/-- merge_data.py line 29: the station id string of a file, the part of
its base name before the first dash, stripped of whitespace. -/
def sidOf (b : String) : String :=
  pyStrip (beforeFirst '-' b)

/-- Python basename.replace("_", "").lower() (merge_data.py line 40):
drop every underscore, then lower-case. -/
def normBase (b : String) : String :=
  String.mk ((b.toList.filter (fun c => c ≠ '_')).map Char.toLower)

/-- merge_data.py lines 29-41: iterate over the downloaded files followed
by the challenge files; a challenge file is copied under its own base
name; a downloaded file whose station id string matches some challenge
station id string is skipped; any other downloaded file is copied under
its normalized base name. -/
def remove_duplicate (downloadFiles challengeFiles : List SrcFile) : List CopyOp :=
  (downloadFiles ++ challengeFiles).filterMap (fun f =>
    if f ∈ challengeFiles then some ⟨f, f.base⟩
    else if sidOf f.base ∈ challengeFiles.map (fun c => sidOf c.base) then none
    else some ⟨f, normBase f.base⟩)

/-! ## Concrete inputs used by the witnesses and counterexamples below -/

/-- A raw record carrying an hour code outside 0100-2400. -/
def recBadHour : RawRecord := ⟨some "2021-01-01", some "9999", some "999", []⟩

/-- A raw record carrying the end-of-day rollover hour code 2400. -/
def rec2400 : RawRecord := ⟨some "2021-01-01", some "2400", some "999", []⟩

/-- A normalized row at timestamp (2021-01-01, 0100). -/
def rowA : Row := ⟨some "2021-01-01", some "0100", some "54",
  [("hly-air-tmp", some 1)], [("hly-air-tmp-qc", "")]⟩

/-- A normalized row at timestamp (2021-01-01, 0200). -/
def rowB : Row := ⟨some "2021-01-01", some "0200", some "54",
  [("hly-air-tmp", some 2)], [("hly-air-tmp-qc", "")]⟩

/-- A response stream whose first attempt fails with a network error and
whose every later attempt would deliver one record. -/
def retryStream : Nat → FetchResponse :=
  fun n => if n = 0 then .networkError else .ok [rec2400]

/-- A bulk-downloaded station file list with one station. -/
def dlsW : List SrcFile := [⟨"Data/cimis_hourly_data_hui", "54-foobar.csv"⟩]

/-- A challenge station file list holding the same station id. -/
def clsW : List SrcFile := [⟨"Data/cimis_stations_data_challenge", "54-FooBar.csv"⟩]

/-- A challenge file whose base name carries an underscore and upper case. -/
def chalOdd : SrcFile := ⟨"Data/cimis_stations_data_challenge", "54-Foo_Bar.csv"⟩

/-! ## Order lemmas for the lexicographic comparisons -/

theorem lexLe_total : ∀ as bs : List Char, lexLe as bs = true ∨ lexLe bs as = true := by
  intro as
  induction as with
  | nil => intro bs; left; rfl
  | cons a as ih =>
    intro bs
    cases bs with
    | nil => right; rfl
    | cons b bs =>
      by_cases h1 : a.toNat < b.toNat
      · left; simp [lexLe, h1]
      · by_cases h2 : b.toNat < a.toNat
        · right; simp [lexLe, h1, h2]
        · rcases ih bs with h | h
          · left; simp [lexLe, h1, h2, h]
          · right; simp [lexLe, h1, h2, h]

theorem lexLe_trans : ∀ as bs cs : List Char,
    lexLe as bs = true → lexLe bs cs = true → lexLe as cs = true := by
  intro as
  induction as with
  | nil => intro bs cs _ _; rfl
  | cons a as ih =>
    intro bs cs h1 h2
    cases bs with
    | nil => simp [lexLe] at h1
    | cons b bs =>
      cases cs with
      | nil => simp [lexLe] at h2
      | cons c cs =>
        rcases Nat.lt_trichotomy a.toNat b.toNat with hab | hab | hab <;>
          rcases Nat.lt_trichotomy b.toNat c.toNat with hbc | hbc | hbc
        · simp [lexLe, show a.toNat < c.toNat by omega]
        · simp [lexLe, show a.toNat < c.toNat by omega]
        · simp [lexLe, show ¬ b.toNat < c.toNat by omega,
                show c.toNat < b.toNat by omega] at h2
        · simp [lexLe, show a.toNat < c.toNat by omega]
        · simp [lexLe, show ¬ a.toNat < b.toNat by omega,
                show ¬ b.toNat < a.toNat by omega] at h1
          simp [lexLe, show ¬ b.toNat < c.toNat by omega,
                show ¬ c.toNat < b.toNat by omega] at h2
          simp [lexLe, show ¬ a.toNat < c.toNat by omega,
                show ¬ c.toNat < a.toNat by omega]
          exact ih bs cs h1 h2
        · simp [lexLe, show ¬ b.toNat < c.toNat by omega,
                show c.toNat < b.toNat by omega] at h2
        · simp [lexLe, show ¬ a.toNat < b.toNat by omega,
                show b.toNat < a.toNat by omega] at h1
        · simp [lexLe, show ¬ a.toNat < b.toNat by omega,
                show b.toNat < a.toNat by omega] at h1
        · simp [lexLe, show ¬ a.toNat < b.toNat by omega,
                show b.toNat < a.toNat by omega] at h1

theorem lexLt_trans : ∀ as bs cs : List Char,
    lexLt as bs = true → lexLt bs cs = true → lexLt as cs = true := by
  intro as
  induction as with
  | nil =>
    intro bs cs h1 h2
    cases bs with
    | nil => simp [lexLt] at h1
    | cons b bs =>
      cases cs with
      | nil => simp [lexLt] at h2
      | cons c cs => rfl
  | cons a as ih =>
    intro bs cs h1 h2
    cases bs with
    | nil => simp [lexLt] at h1
    | cons b bs =>
      cases cs with
      | nil => simp [lexLt] at h2
      | cons c cs =>
        rcases Nat.lt_trichotomy a.toNat b.toNat with hab | hab | hab <;>
          rcases Nat.lt_trichotomy b.toNat c.toNat with hbc | hbc | hbc
        · simp [lexLt, show a.toNat < c.toNat by omega]
        · simp [lexLt, show a.toNat < c.toNat by omega]
        · simp [lexLt, show ¬ b.toNat < c.toNat by omega,
                show c.toNat < b.toNat by omega] at h2
        · simp [lexLt, show a.toNat < c.toNat by omega]
        · simp [lexLt, show ¬ a.toNat < b.toNat by omega,
                show ¬ b.toNat < a.toNat by omega] at h1
          simp [lexLt, show ¬ b.toNat < c.toNat by omega,
                show ¬ c.toNat < b.toNat by omega] at h2
          simp [lexLt, show ¬ a.toNat < c.toNat by omega,
                show ¬ c.toNat < a.toNat by omega]
          exact ih bs cs h1 h2
        · simp [lexLt, show ¬ b.toNat < c.toNat by omega,
                show c.toNat < b.toNat by omega] at h2
        · simp [lexLt, show ¬ a.toNat < b.toNat by omega,
                show b.toNat < a.toNat by omega] at h1
        · simp [lexLt, show ¬ a.toNat < b.toNat by omega,
                show b.toNat < a.toNat by omega] at h1
        · simp [lexLt, show ¬ a.toNat < b.toNat by omega,
                show b.toNat < a.toNat by omega] at h1

theorem lexLt_irrefl : ∀ as : List Char, lexLt as as = false := by
  intro as
  induction as with
  | nil => rfl
  | cons a as ih => simp [lexLt, ih]

theorem lexLt_asymm {as bs : List Char} (h : lexLt as bs = true) : lexLt bs as = false := by
  cases hba : lexLt bs as
  · rfl
  · have := lexLt_trans as bs as h hba
    rw [lexLt_irrefl] at this
    exact absurd this (by simp)

theorem lexLe_of_lt : ∀ as bs : List Char, lexLt as bs = true → lexLe as bs = true := by
  intro as
  induction as with
  | nil => intro bs _; rfl
  | cons a as ih =>
    intro bs h
    cases bs with
    | nil => simp [lexLt] at h
    | cons b bs =>
      rcases Nat.lt_trichotomy a.toNat b.toNat with hab | hab | hab
      · simp [lexLe, hab]
      · simp [lexLt, show ¬ a.toNat < b.toNat by omega,
              show ¬ b.toNat < a.toNat by omega] at h
        simp [lexLe, show ¬ a.toNat < b.toNat by omega,
              show ¬ b.toNat < a.toNat by omega]
        exact ih bs h
      · simp [lexLt, show ¬ a.toNat < b.toNat by omega, hab] at h

theorem char_toNat_inj {a b : Char} (h : a.toNat = b.toNat) : a = b := by
  rw [← Char.ofNat_toNat a, ← Char.ofNat_toNat b, h]

theorem lexLt_of_le_ne : ∀ as bs : List Char,
    lexLe as bs = true → as ≠ bs → lexLt as bs = true := by
  intro as
  induction as with
  | nil =>
    intro bs _ hne
    cases bs with
    | nil => exact absurd rfl hne
    | cons b bs => rfl
  | cons a as ih =>
    intro bs h hne
    cases bs with
    | nil => simp [lexLe] at h
    | cons b bs =>
      rcases Nat.lt_trichotomy a.toNat b.toNat with hab | hab | hab
      · simp [lexLt, hab]
      · have hab2 : a = b := char_toNat_inj hab
        subst hab2
        simp [lexLe, Nat.lt_irrefl] at h
        simp [lexLt, Nat.lt_irrefl]
        exact ih bs h (by intro hc; exact hne (by rw [hc]))
      · simp [lexLe, show ¬ a.toNat < b.toNat by omega, hab] at h

theorem string_toList_inj {x y : String} (h : x.toList = y.toList) : x = y := by
  cases x
  cases y
  exact congrArg String.mk h

theorem optStrLe_total (a b : Option String) : optStrLe a b = true ∨ optStrLe b a = true := by
  cases a with
  | none =>
    cases b with
    | none => left; rfl
    | some y => right; rfl
  | some x =>
    cases b with
    | none => left; rfl
    | some y => exact lexLe_total x.toList y.toList

theorem optStrLe_trans {a b c : Option String}
    (h1 : optStrLe a b = true) (h2 : optStrLe b c = true) : optStrLe a c = true := by
  cases a with
  | none =>
    cases b with
    | none => exact h2
    | some y => simp [optStrLe] at h1
  | some x =>
    cases c with
    | none => rfl
    | some z =>
      cases b with
      | none => simp [optStrLe] at h2
      | some y => exact lexLe_trans x.toList y.toList z.toList h1 h2

theorem optStrLt_trans {a b c : Option String}
    (h1 : optStrLt a b = true) (h2 : optStrLt b c = true) : optStrLt a c = true := by
  cases a with
  | none => simp [optStrLt] at h1
  | some x =>
    cases b with
    | none => simp [optStrLt] at h2
    | some y =>
      cases c with
      | none => rfl
      | some z => exact lexLt_trans x.toList y.toList z.toList h1 h2

theorem optStrLt_asymm {a b : Option String}
    (h : optStrLt a b = true) : optStrLt b a = false := by
  cases a with
  | none => simp [optStrLt] at h
  | some x =>
    cases b with
    | none => rfl
    | some y => exact lexLt_asymm h

theorem optStrLt_of_le_ne {a b : Option String}
    (h1 : optStrLe a b = true) (h2 : a ≠ b) : optStrLt a b = true := by
  cases a with
  | none =>
    cases b with
    | none => exact absurd rfl h2
    | some y => simp [optStrLe] at h1
  | some x =>
    cases b with
    | none => rfl
    | some y =>
      refine lexLt_of_le_ne x.toList y.toList h1 ?_
      intro hl
      exact h2 (by rw [string_toList_inj hl])

theorem optStrLt_total_of_ne {a b : Option String}
    (h : a ≠ b) : optStrLt a b = true ∨ optStrLt b a = true := by
  rcases optStrLe_total a b with hle | hle
  · exact Or.inl (optStrLt_of_le_ne hle h)
  · exact Or.inr (optStrLt_of_le_ne hle (Ne.symm h))

/-! ## Row order and sorting lemmas -/

theorem rowLe_total (a b : Row) : rowLe a b = true ∨ rowLe b a = true := by
  by_cases h : a.date = b.date
  · rw [rowLe, if_pos h, rowLe, if_pos h.symm]
    exact optStrLe_total a.hour b.hour
  · rw [rowLe, if_neg h, rowLe, if_neg (Ne.symm h)]
    exact optStrLt_total_of_ne h

theorem rowLe_trans {a b c : Row}
    (h1 : rowLe a b = true) (h2 : rowLe b c = true) : rowLe a c = true := by
  by_cases hab : a.date = b.date <;> by_cases hbc : b.date = c.date
  · rw [rowLe, if_pos hab] at h1
    rw [rowLe, if_pos hbc] at h2
    rw [rowLe, if_pos (hab.trans hbc)]
    exact optStrLe_trans h1 h2
  · rw [rowLe, if_pos hab] at h1
    rw [rowLe, if_neg hbc] at h2
    have hac : a.date ≠ c.date := by
      intro hc
      exact hbc (hab.symm.trans hc)
    rw [rowLe, if_neg hac, hab]
    exact h2
  · rw [rowLe, if_neg hab] at h1
    rw [rowLe, if_pos hbc] at h2
    have hac : a.date ≠ c.date := by
      intro hc
      exact hab (hc.trans hbc.symm)
    rw [rowLe, if_neg hac, ← hbc]
    exact h1
  · rw [rowLe, if_neg hab] at h1
    rw [rowLe, if_neg hbc] at h2
    have hlt := optStrLt_trans h1 h2
    have hac : a.date ≠ c.date := by
      intro hc
      rw [hc] at h1
      have := optStrLt_asymm h2
      rw [h1] at this
      exact absurd this (by simp)
    rw [rowLe, if_neg hac]
    exact hlt

theorem rowLt_of_le_of_keyne {a b : Row}
    (h1 : rowLe a b = true) (h2 : rowKey a ≠ rowKey b) : rowLt a b = true := by
  by_cases hab : a.date = b.date
  · rw [rowLe, if_pos hab] at h1
    rw [rowLt, if_pos hab]
    refine optStrLt_of_le_ne h1 ?_
    intro hh
    exact h2 (by rw [rowKey, rowKey, hab, hh])
  · rw [rowLe, if_neg hab] at h1
    rw [rowLt, if_neg hab]
    exact h1

theorem insertRow_perm (r : Row) (l : List Row) : (insertRow r l).Perm (r :: l) := by
  induction l with
  | nil => exact List.Perm.refl _
  | cons x xs ih =>
    rw [insertRow]
    by_cases h : rowLe r x = true
    · rw [if_pos h]
    · rw [if_neg h]
      exact (ih.cons x).trans (List.Perm.swap r x xs)

theorem sortRows_perm (l : List Row) : (sortRows l).Perm l := by
  induction l with
  | nil => exact List.Perm.refl _
  | cons x xs ih => exact (insertRow_perm x (sortRows xs)).trans (ih.cons x)

theorem mem_insertRow {y r : Row} {l : List Row} (h : y ∈ insertRow r l) :
    y = r ∨ y ∈ l := by
  have := (insertRow_perm r l).mem_iff.mp h
  simpa using this

theorem insertRow_pairwise (r : Row) (l : List Row)
    (h : l.Pairwise (fun a b => rowLe a b = true)) :
    (insertRow r l).Pairwise (fun a b => rowLe a b = true) := by
  induction l with
  | nil => simp [insertRow]
  | cons x xs ih =>
    rw [List.pairwise_cons] at h
    obtain ⟨hx, hxs⟩ := h
    rw [insertRow]
    by_cases hrx : rowLe r x = true
    · rw [if_pos hrx]
      refine List.Pairwise.cons ?_ (List.Pairwise.cons hx hxs)
      intro y hy
      rcases List.mem_cons.mp hy with rfl | hy2
      · exact hrx
      · exact rowLe_trans hrx (hx y hy2)
    · rw [if_neg hrx]
      have hxr : rowLe x r = true := (rowLe_total r x).resolve_left hrx
      refine List.Pairwise.cons ?_ (ih hxs)
      intro y hy
      rcases mem_insertRow hy with rfl | hy2
      · exact hxr
      · exact hx y hy2

theorem sortRows_pairwise (l : List Row) :
    (sortRows l).Pairwise (fun a b => rowLe a b = true) := by
  induction l with
  | nil => exact List.Pairwise.nil
  | cons x xs ih => exact insertRow_pairwise x (sortRows xs) ih

/-! ## Chunking loop invariant -/

theorem chunksFuel_invariant (d : Nat) (hd : 1 ≤ d) (e : Int) :
    ∀ (fuel : Nat) (s : Int), (e + 1 - s).toNat ≤ fuel →
      (e < s → chunksFuel d e fuel s = []) ∧
      (s ≤ e → ∃ t, chunksFuel d e fuel s = (s, min (s + d - 1) e) :: t) ∧
      (∀ w ∈ chunksFuel d e fuel s, s ≤ w.1 ∧ w.1 ≤ w.2 ∧ w.2 ≤ e ∧ w.2 - w.1 + 1 ≤ d) ∧
      List.Chain' (fun a b => b.1 = a.2 + 1) (chunksFuel d e fuel s) ∧
      List.Pairwise (fun a b => a.2 < b.1) (chunksFuel d e fuel s) ∧
      (∀ x : Int, (∃ w ∈ chunksFuel d e fuel s, w.1 ≤ x ∧ x ≤ w.2) ↔ s ≤ x ∧ x ≤ e) := by
  intro fuel
  induction fuel with
  | zero =>
    intro s hfuel
    have hse : e < s := by omega
    refine ⟨fun _ => rfl, fun h => absurd h (by omega), ?_, ?_, ?_, ?_⟩
    · intro w hw
      simp [chunksFuel] at hw
    · exact List.chain'_nil
    · exact List.Pairwise.nil
    · intro x
      constructor
      · rintro ⟨w, hw, _⟩
        simp [chunksFuel] at hw
      · intro hx
        omega
  | succ n ih =>
    intro s hfuel
    by_cases hse : s ≤ e
    · have hce1 : s ≤ min (s + d - 1) e := by omega
      have hce2 : min (s + d - 1) e ≤ e := by omega
      have hfuel2 : (e + 1 - (min (s + d - 1) e + 1)).toNat ≤ n := by omega
      obtain ⟨ih1, ih2, ih3, ih4, ih5, ih6⟩ := ih (min (s + d - 1) e + 1) hfuel2
      have hunf : chunksFuel d e (n + 1) s =
          (s, min (s + d - 1) e) :: chunksFuel d e n (min (s + d - 1) e + 1) := by
        rw [chunksFuel, if_pos hse]
      refine ⟨fun h => absurd hse (by omega), fun _ => ⟨_, hunf⟩, ?_, ?_, ?_, ?_⟩
      · intro w hw
        rw [hunf] at hw
        rcases List.mem_cons.mp hw with rfl | hw2
        · refine ⟨le_refl s, hce1, hce2, by omega⟩
        · obtain ⟨hw1, hw2', hw3, hw4⟩ := ih3 w hw2
        
          exact ⟨by omega, hw2', hw3, hw4⟩
      · rw [hunf]
        by_cases hse2 : min (s + d - 1) e + 1 ≤ e
        · obtain ⟨t, ht⟩ := ih2 hse2
          rw [ht]
          exact List.Chain'.cons rfl (ht ▸ ih4)
        · rw [ih1 (by omega)]
          exact List.chain'_singleton _
      · rw [hunf]
        refine List.Pairwise.cons ?_ ih5
        intro w hw
        have := (ih3 w hw).1
        omega
      · intro x
        rw [hunf]
        constructor
        · rintro ⟨w, hw, hx1, hx2⟩
          rcases List.mem_cons.mp hw with rfl | hw2
          · simp only at hx1 hx2
            omega
          · have := (ih6 x).mp ⟨w, hw2, hx1, hx2⟩
            omega
        · rintro ⟨hx1, hx2⟩
          by_cases hxc : x ≤ min (s + d - 1) e
          · exact ⟨(s, min (s + d - 1) e), List.mem_cons_self _ _, hx1, hxc⟩
          · obtain ⟨w, hw, h1, h2⟩ := (ih6 x).mpr ⟨by omega, hx2⟩
            exact ⟨w, List.mem_cons_of_mem _ hw, h1, h2⟩
    · have hunf : chunksFuel d e (n + 1) s = [] := by
        rw [chunksFuel, if_neg hse]
      refine ⟨fun _ => hunf, fun h => absurd h hse, ?_, ?_, ?_, ?_⟩
      · intro w hw
        rw [hunf] at hw
        simp at hw
      · rw [hunf]
        exact List.chain'_nil
      · rw [hunf]
        exact List.Pairwise.nil
      · intro x
        rw [hunf]
        constructor
        · rintro ⟨w, hw, _⟩
          simp at hw
        · intro hx
          omega

/-! ## Reconciliation helper lemmas -/

theorem remove_duplicate_cases (dls cls : List SrcFile) (op : CopyOp)
    (hop : op ∈ remove_duplicate dls cls) :
    op.src ∈ dls ++ cls ∧
    ((op.src ∈ cls ∧ op.destBase = op.src.base) ∨
     (op.src ∉ cls ∧ sidOf op.src.base ∉ cls.map (fun c => sidOf c.base) ∧
      op.destBase = normBase op.src.base)) := by
  rw [remove_duplicate, List.mem_filterMap] at hop
  obtain ⟨g, hg, hfg⟩ := hop
  by_cases h1 : g ∈ cls
  · rw [if_pos h1] at hfg
    have : (⟨g, g.base⟩ : CopyOp) = op := Option.some.inj hfg
    subst this
    exact ⟨hg, Or.inl ⟨h1, rfl⟩⟩
  · rw [if_neg h1] at hfg
    by_cases h2 : sidOf g.base ∈ cls.map (fun c => sidOf c.base)
    · rw [if_pos h2] at hfg
      exact absurd hfg (by simp)
    · rw [if_neg h2] at hfg
      have : (⟨g, normBase g.base⟩ : CopyOp) = op := Option.some.inj hfg
      subst this
      exact ⟨hg, Or.inr ⟨h1, h2, rfl⟩⟩

theorem chal_mem_remove_duplicate (dls cls : List SrcFile) (c : SrcFile) (hc : c ∈ cls) :
    (⟨c, c.base⟩ : CopyOp) ∈ remove_duplicate dls cls := by
  rw [remove_duplicate, List.mem_filterMap]
  exact ⟨c, List.mem_append_right _ hc, by rw [if_pos hc]⟩

theorem dl_mem_remove_duplicate (dls cls : List SrcFile) (b : SrcFile)
    (hb : b ∈ dls) (h1 : b ∉ cls)
    (h2 : sidOf b.base ∉ cls.map (fun c => sidOf c.base)) :
    (⟨b, normBase b.base⟩ : CopyOp) ∈ remove_duplicate dls cls := by
  rw [remove_duplicate, List.mem_filterMap]
  exact ⟨b, List.mem_append_left _ hb, by rw [if_neg h1, if_neg h2]⟩

/-! ## Station loop helper lemma -/

theorem flatten_filter_nonempty {α : Type} (ls : List (List α)) :
    (ls.filter (fun l => !l.isEmpty)).flatten = ls.flatten := by
  induction ls with
  | nil => rfl
  | cons h t ih =>
    rw [List.filter_cons]
    cases h with
    | nil => simpa using ih
    | cons x xs => simpa using ih

/-! ## Float parsing helper lemma -/

theorem pyFloat_eq_none_of_strip_empty (s : String) (h : pyStrip s = "") :
    pyFloat s = none := by
  rw [pyFloat, h]
  rfl

theorem countP_eq_one_of_nodup_mem {α : Type} [DecidableEq α]
    (l : List α) (k : α) (hn : l.Nodup) (hk : k ∈ l) :
    l.countP (fun x => decide (x = k)) = 1 := by
  induction l with
  | nil => simp at hk
  | cons a t ih =>
    rw [List.nodup_cons] at hn
    obtain ⟨ha, hnt⟩ := hn
    rw [List.countP_cons]
    rcases List.mem_cons.mp hk with rfl | hkt
    · have h0 : t.countP (fun x => decide (x = k)) = 0 := by
        rw [List.countP_eq_zero]
        intro x hx
        simp only [decide_eq_true_eq]
        intro hxk
        exact ha (hxk ▸ hx)
      simp [h0]
    · have hak : ¬ (a = k) := by
        intro hak
        exact ha (hak ▸ hkt)
      simp only [decide_eq_true_eq, hak, if_false]
      simpa using ih hnt hkt

/-! ## Claim theorems -/

/-- Claim C1, counterexample: the normalizer does not decode (date, hour)
into a timestamp and does not drop records. A record with the hour code
9999 — which the claim says must fail with TimestampDecodeError and be
dropped — yields exactly one output row that still carries the raw hour
string, and a record with hour code 2400 keeps the raw pair
(2021-01-01, 2400) instead of decoding to 2021-01-02 00:00. -/
theorem unknown_hour_code_record_kept :
    (processRecords [recBadHour]).length = 1 ∧
    (processRecords [recBadHour]).map Row.hour = [some "9999"] ∧
    (processRecords [rec2400]).map (fun r => (r.date, r.hour)) =
      [(some "2021-01-01", some "2400")] := by
  refine ⟨by decide, by decide, by decide⟩

/-- Claim C1, amended: the normalizer performs no timestamp decoding and
never fails: every raw record yields exactly one output row, and each
row carries the record's raw date string and hour code unchanged. -/
theorem normalizer_keeps_raw_date_hour (rs : List RawRecord) :
    (processRecords rs).length = rs.length ∧
    (processRecords rs).map (fun r => (r.date, r.hour)) =
      rs.map (fun r => (r.date, r.hour)) := by
  constructor
  · rw [processRecords, List.length_map]
  · rw [processRecords, List.map_map]
    rfl

/-- Claim C2, counterexample: when two chunks both contribute a row at the
same (date, hour), the aggregator output contains two rows with that
timestamp, not one — concat plus sort performs no deduplication. -/
theorem aggregator_retains_duplicate_timestamps :
    ((aggregate [[rowA], [rowA]]).map rowKey).countP
      (fun x => decide (x = (some "2021-01-01", some "0100"))) = 2 := by
  decide

/-- Claim C2, amended: the aggregator output is a permutation of the
concatenated chunk rows sorted in non-decreasing (Date, Hour) order;
duplicate timestamps are retained, so when the chunks' rows carry pairwise
distinct timestamps — as they do for the non-overlapping windows the
chunk planner produces — the output is strictly increasing with exactly
one row per timestamp. -/
theorem aggregator_sorted_and_unique (css : List (List Row))
    (h : (css.flatten.map rowKey).Nodup) :
    (aggregate css).Perm css.flatten ∧
    (aggregate css).Pairwise (fun a b => rowLe a b = true) ∧
    (aggregate css).Pairwise (fun a b => rowLt a b = true) ∧
    (∀ k ∈ css.flatten.map rowKey,
      ((aggregate css).map rowKey).countP (fun x => decide (x = k)) = 1) := by
  have hperm : (aggregate css).Perm css.flatten := sortRows_perm _
  have hpw := sortRows_pairwise css.flatten
  have hmapperm : ((aggregate css).map rowKey).Perm (css.flatten.map rowKey) :=
    hperm.map _
  have hnd : ((aggregate css).map rowKey).Pairwise (fun a b => a ≠ b) :=
    hmapperm.nodup_iff.mpr h
  have hkeyne : (aggregate css).Pairwise (fun a b => rowKey a ≠ rowKey b) :=
    List.pairwise_map.mp hnd
  refine ⟨hperm, hpw, ?_, ?_⟩
  · exact (hpw.and hkeyne).imp (fun hab => rowLt_of_le_of_keyne hab.1 hab.2)
  · intro k hk
    exact (hmapperm.countP_eq _).trans (countP_eq_one_of_nodup_mem _ k h hk)

/-- Witness for C2: two disjoint singleton chunks, applied to the amended
aggregator theorem with the distinctness hypothesis discharged. -/
theorem aggregator_sorted_and_unique_witness :
    (([[rowA], [rowB]] : List (List Row)).flatten.map rowKey).Nodup ∧
    ((aggregate [[rowA], [rowB]]).Perm ([[rowA], [rowB]] : List (List Row)).flatten ∧
     (aggregate [[rowA], [rowB]]).Pairwise (fun a b => rowLe a b = true) ∧
     (aggregate [[rowA], [rowB]]).Pairwise (fun a b => rowLt a b = true) ∧
     (∀ k ∈ ([[rowA], [rowB]] : List (List Row)).flatten.map rowKey,
       ((aggregate [[rowA], [rowB]]).map rowKey).countP (fun x => decide (x = k)) = 1)) :=
  ⟨by decide, aggregator_sorted_and_unique [[rowA], [rowB]] (by decide)⟩

/-- Claim C3: provenance precedence in the reconciler. If a station id
string occurs in both provenances, no copy originates from the bulk
(download) file; every challenge file is copied; a download file for a
station absent from the challenge set is copied. -/
theorem reconciler_provenance_precedence
    (dls cls : List SrcFile) (dupB a : SrcFile)
    (ha : a ∈ cls) (_hb : dupB ∈ dls) (hbc : dupB ∉ cls)
    (hsid : sidOf dupB.base = sidOf a.base) :
    (∀ op ∈ remove_duplicate dls cls, op.src ≠ dupB) ∧
    (∀ c ∈ cls, (⟨c, c.base⟩ : CopyOp) ∈ remove_duplicate dls cls) ∧
    (∀ b ∈ dls, b ∉ cls → sidOf b.base ∉ cls.map (fun c => sidOf c.base) →
      (⟨b, normBase b.base⟩ : CopyOp) ∈ remove_duplicate dls cls) := by
  refine ⟨?_, ?_, ?_⟩
  · intro op hop heq
    obtain ⟨_, hcases⟩ := remove_duplicate_cases dls cls op hop
    rcases hcases with ⟨hc, _⟩ | ⟨_, h2, _⟩
    · rw [heq] at hc
      exact hbc hc
    · rw [heq] at h2
      refine h2 ?_
      rw [hsid]
      exact List.mem_map.mpr ⟨a, ha, rfl⟩
  · intro c hc
    exact chal_mem_remove_duplicate dls cls c hc
  · intro b hb2 h1 h2
    exact dl_mem_remove_duplicate dls cls b hb2 h1 h2

/-- Witness for C3: a one-station overlap between the two provenances. -/
theorem reconciler_provenance_precedence_witness :
    (∀ op ∈ remove_duplicate dlsW clsW,
      op.src ≠ ⟨"Data/cimis_hourly_data_hui", "54-foobar.csv"⟩) ∧
    (∀ c ∈ clsW, (⟨c, c.base⟩ : CopyOp) ∈ remove_duplicate dlsW clsW) ∧
    (∀ b ∈ dlsW, b ∉ clsW → sidOf b.base ∉ clsW.map (fun c => sidOf c.base) →
      (⟨b, normBase b.base⟩ : CopyOp) ∈ remove_duplicate dlsW clsW) :=
  reconciler_provenance_precedence dlsW clsW
    ⟨"Data/cimis_hourly_data_hui", "54-foobar.csv"⟩
    ⟨"Data/cimis_stations_data_challenge", "54-FooBar.csv"⟩
    (by decide) (by decide) (by decide) (by decide)

/-- Claim C4: the chunking loop windows are pairwise non-overlapping,
contiguous, each of length at most d, and cover [s, e] exactly; an empty
range yields an empty sequence. Dates are integer day numbers. -/
theorem chunk_plan_correct (s e : Int) (d : Nat) (hd : 1 ≤ d) :
    (e < s → chunks s e d = []) ∧
    (∀ w ∈ chunks s e d, s ≤ w.1 ∧ w.1 ≤ w.2 ∧ w.2 ≤ e ∧ w.2 - w.1 + 1 ≤ d) ∧
    List.Chain' (fun a b => b.1 = a.2 + 1) (chunks s e d) ∧
    List.Pairwise (fun a b => a.2 < b.1) (chunks s e d) ∧
    (∀ x : Int, (∃ w ∈ chunks s e d, w.1 ≤ x ∧ x ≤ w.2) ↔ s ≤ x ∧ x ≤ e) := by
  obtain ⟨h1, _, h3, h4, h5, h6⟩ :=
    chunksFuel_invariant d hd e ((e + 1 - s).toNat) s (le_refl _)
  exact ⟨h1, h3, h4, h5, h6⟩

/-- Witness for C4: the configured window size CHUNK_DAYS = 60 on the
integer range [0, 200]. -/
theorem chunk_plan_correct_witness :
    1 ≤ CHUNK_DAYS ∧
    ((200 : Int) < 0 → chunks 0 200 CHUNK_DAYS = []) ∧
    (∀ w ∈ chunks 0 200 CHUNK_DAYS,
      0 ≤ w.1 ∧ w.1 ≤ w.2 ∧ w.2 ≤ 200 ∧ w.2 - w.1 + 1 ≤ CHUNK_DAYS) ∧
    List.Chain' (fun a b => b.1 = a.2 + 1) (chunks 0 200 CHUNK_DAYS) ∧
    List.Pairwise (fun a b => a.2 < b.1) (chunks 0 200 CHUNK_DAYS) ∧
    (∀ x : Int, (∃ w ∈ chunks 0 200 CHUNK_DAYS, w.1 ≤ x ∧ x ≤ w.2) ↔
      0 ≤ x ∧ x ≤ 200) := by
  have h := chunk_plan_correct 0 200 CHUNK_DAYS (by decide)
  exact ⟨by decide, h.1, h.2.1, h.2.2.1, h.2.2.2.1, h.2.2.2.2⟩

/-- Claim C5: value extraction is total and never raises. An absent field
yields null; a raw value whose stripped form lies in the sentinel set
yields null; otherwise the value is exactly the float-parse result, so a
parse failure also yields null. -/
theorem value_extraction_never_raises (s : String) :
    extractValue none = none ∧
    (pyStrip s ∈ (["M", "---", "####", ""] : List String) →
      extractValue (some s) = none) ∧
    (pyStrip s ∉ (["M", "---", "####", ""] : List String) →
      extractValue (some s) = pyFloat s) ∧
    (pyFloat s = none → extractValue (some s) = none) := by
  refine ⟨rfl, ?_, ?_, ?_⟩
  · intro h
    simp only [List.mem_cons, List.not_mem_nil, or_false] at h
    rw [extractValue]
    rcases h with h | h | h | h
    · rw [if_neg]
      rintro ⟨-, hns⟩
      exact hns (by simp [h])
    · rw [if_neg]
      rintro ⟨-, hns⟩
      exact hns (by simp [h])
    · rw [if_neg]
      rintro ⟨-, hns⟩
      exact hns (by simp [h])
    · by_cases hs : s = ""
      · rw [if_neg]
        rintro ⟨hne, -⟩
        exact hne hs
      · rw [if_pos ⟨hs, by simp [h]⟩]
        exact pyFloat_eq_none_of_strip_empty s h
  · intro h
    have hs : s ≠ "" := by
      intro hs
      subst hs
      exact h (by simp [show pyStrip "" = "" from rfl])
    have h3 : pyStrip s ∉ (["M", "---", "####"] : List String) := by
      intro hm
      refine h ?_
      simp only [List.mem_cons, List.not_mem_nil, or_false] at hm ⊢
      tauto
    rw [extractValue, if_pos ⟨hs, h3⟩]
  · intro h
    rw [extractValue]
    by_cases hc : s ≠ "" ∧ pyStrip s ∉ (["M", "---", "####"] : List String)
    · rw [if_pos hc]
      exact h
    · rw [if_neg hc]

/-- Witness for C5: the sentinel clause applied at the raw value " M ". -/
theorem value_extraction_never_raises_witness :
    pyStrip " M " ∈ (["M", "---", "####", ""] : List String) ∧
    extractValue (some " M ") = none :=
  ⟨by decide, (value_extraction_never_raises " M ").2.1 (by decide)⟩

/-- Claim C6: QC extraction and value extraction are independent. The
value component of the extracted pair does not depend on the QC subfield
and the QC component does not depend on the value subfield; a field with
value M and QC Y yields (null, Y); a field with a valid numeric value and
no QC subfield yields a non-null value and the empty QC string. -/
theorem qc_value_extraction_independent (v w q r : Option String) :
    (extractPair ⟨v, q⟩).1 = (extractPair ⟨v, r⟩).1 ∧
    (extractPair ⟨v, q⟩).2 = (extractPair ⟨w, q⟩).2 ∧
    extractPair ⟨some "M", some "Y"⟩ = (none, "Y") ∧
    extractPair ⟨some "12", none⟩ = (some (12 : Rat), "") := by
  exact ⟨rfl, rfl, by decide, by decide⟩

/-- Claim C7, counterexample: the fetch layer never retries. On a stream
whose first attempt fails with a network error and whose every later
attempt would return one record, the code issues exactly one attempt and
the chunk yields zero records — a retrying implementation would have
produced the record. -/
theorem fetch_failure_not_retried :
    fetchChunk retryStream = ([], 1) ∧
    retryStream 1 = .ok [rec2400] ∧
    processRecords [rec2400] ≠ [] := by
  exact ⟨by decide, rfl, by decide⟩

/-- Claim C7, amended: every (station, chunk) request issues exactly one
attempt; a network error, server error, undecodable payload or missing
records structure is contained immediately without retry, the chunk
yields zero records, and the station data is the concatenation of each
chunk's own rows, so sibling chunks and other stations are unaffected. -/
theorem fetch_contained_single_attempt
    (streams : List (Nat → FetchResponse)) (s : Nat → FetchResponse)
    (_hs : s ∈ streams) (hf : isFailure (s 0) = true) :
    (fetchChunk s).2 = 1 ∧ (fetchChunk s).1 = [] ∧
    (∀ t ∈ streams, (fetchChunk t).2 = 1) ∧
    stationRows streams = (streams.map (fun t => (fetchChunk t).1)).flatten ∧
    (∀ (t : Nat → FetchResponse) (ts : List (Nat → FetchResponse)),
      stationRows (t :: ts) = (fetchChunk t).1 ++ stationRows ts) := by
  have hone : ∀ t : Nat → FetchResponse, (fetchChunk t).2 = 1 := by
    intro t
    rw [fetchChunk]
    cases t 0 <;> rfl
  have hflat : ∀ ts : List (Nat → FetchResponse),
      stationRows ts = (ts.map (fun t => (fetchChunk t).1)).flatten := by
    intro ts
    rw [stationRows, flatten_filter_nonempty]
  refine ⟨hone s, ?_, fun t _ => hone t, hflat streams, ?_⟩
  · rw [fetchChunk]
    cases h0 : s 0 with
    | ok recs =>
      rw [h0] at hf
      simp [isFailure] at hf
    | networkError => rfl
    | serverError => rfl
    | badJson => rfl
    | missingStructure => rfl
  · intro t ts
    rw [hflat (t :: ts), hflat ts, List.map_cons, List.flatten_cons]

/-- Witness for C7: a single chunk whose first response is a network
error, applied to the containment theorem. -/
theorem fetch_contained_single_attempt_witness :
    (fetchChunk retryStream).2 = 1 ∧ (fetchChunk retryStream).1 = [] ∧
    (∀ t ∈ [retryStream], (fetchChunk t).2 = 1) ∧
    stationRows [retryStream] =
      (([retryStream] : List (Nat → FetchResponse)).map
        (fun t => (fetchChunk t).1)).flatten ∧
    (∀ (t : Nat → FetchResponse) (ts : List (Nat → FetchResponse)),
      stationRows (t :: ts) = (fetchChunk t).1 ++ stationRows ts) :=
  fetch_contained_single_attempt [retryStream] retryStream
    (List.mem_singleton.mpr rfl) rfl

/-- Claim C8: the runtime derivation of provider field keys is
extensionally equal, over the ten configured variables, to the static
name-mapping table the spec prescribes. -/
theorem json_key_matches_static_table :
    DATA_ITEMS.map (fun i => (i, json_key i)) = staticFieldKeyTable := by
  decide

/-- Claim C9, counterexample: a challenge file whose base name carries an
underscore and upper case is placed in the corpus under that base name
unchanged, which differs from its normalized form — so output filenames
are not normalized for both provenances. -/
theorem challenge_filename_kept_verbatim :
    remove_duplicate [] [chalOdd] = [⟨chalOdd, "54-Foo_Bar.csv"⟩] ∧
    normBase "54-Foo_Bar.csv" ≠ "54-Foo_Bar.csv" := by
  exact ⟨by decide, by decide⟩

/-- Claim C9, amended: only bulk-downloaded files are renamed at
reconciliation — every copy either originates from a challenge file and
keeps its base name verbatim, or originates from a download file and is
written under the normalized (underscores removed, lower-cased) name. -/
theorem reconciler_filename_normalization
    (dls cls : List SrcFile) (op : CopyOp)
    (hop : op ∈ remove_duplicate dls cls) :
    (op.src ∈ cls ∧ op.destBase = op.src.base) ∨
    (op.src ∈ dls ∧ op.src ∉ cls ∧ op.destBase = normBase op.src.base) := by
  obtain ⟨hg, hcases⟩ := remove_duplicate_cases dls cls op hop
  rcases hcases with ⟨h1, h2⟩ | ⟨h1, _, h3⟩
  · exact Or.inl ⟨h1, h2⟩
  · refine Or.inr ⟨?_, h1, h3⟩
    rcases List.mem_append.mp hg with h | h
    · exact h
    · exact absurd h h1

/-- Witness for C9: the copy of the challenge file in the one-station
overlap example keeps its base name. -/
theorem reconciler_filename_normalization_witness :
    ((⟨⟨"Data/cimis_stations_data_challenge", "54-FooBar.csv"⟩,
        "54-FooBar.csv"⟩ : CopyOp).src ∈ clsW ∧
      (⟨⟨"Data/cimis_stations_data_challenge", "54-FooBar.csv"⟩,
        "54-FooBar.csv"⟩ : CopyOp).destBase =
      (⟨⟨"Data/cimis_stations_data_challenge", "54-FooBar.csv"⟩,
        "54-FooBar.csv"⟩ : CopyOp).src.base) ∨
    ((⟨⟨"Data/cimis_stations_data_challenge", "54-FooBar.csv"⟩,
        "54-FooBar.csv"⟩ : CopyOp).src ∈ dlsW ∧
      (⟨⟨"Data/cimis_stations_data_challenge", "54-FooBar.csv"⟩,
        "54-FooBar.csv"⟩ : CopyOp).src ∉ clsW ∧
      (⟨⟨"Data/cimis_stations_data_challenge", "54-FooBar.csv"⟩,
        "54-FooBar.csv"⟩ : CopyOp).destBase =
      normBase (⟨⟨"Data/cimis_stations_data_challenge", "54-FooBar.csv"⟩,
        "54-FooBar.csv"⟩ : CopyOp).src.base) :=
  reconciler_filename_normalization dlsW clsW _ (by decide)

/-- Claim C10: a downloaded file is excluded from the corpus exactly when
its station id string — the part of the base name before the first dash,
whitespace-stripped — is string-equal to that of some challenge file;
ids are never compared numerically, so the files 054-fresno.csv and
54-fresno.csv, which denote the same station number, are both kept. -/
theorem exclusion_by_exact_sid_string :
    (∀ (dls cls : List SrcFile) (f : SrcFile), f ∈ dls → f ∉ cls →
      ((∀ op ∈ remove_duplicate dls cls, op.src ≠ f) ↔
        sidOf f.base ∈ cls.map (fun c => sidOf c.base))) ∧
    (remove_duplicate [⟨"d", "054-fresno.csv"⟩] [⟨"c", "54-fresno.csv"⟩]).length = 2 ∧
    sidOf "054-fresno.csv" ≠ sidOf "54-fresno.csv" := by
  refine ⟨?_, by decide, by decide⟩
  intro dls cls f hf hfc
  constructor
  · intro hall
    by_contra h2
    exact hall ⟨f, normBase f.base⟩ (dl_mem_remove_duplicate dls cls f hf hfc h2) rfl
  · intro hsid op hop heq
    obtain ⟨_, hcases⟩ := remove_duplicate_cases dls cls op hop
    rcases hcases with ⟨hc, _⟩ | ⟨_, h2, _⟩
    · rw [heq] at hc
      exact hfc hc
    · rw [heq] at h2
      exact h2 hsid

/-- Witness for C10: the exclusion criterion instantiated on the
one-station overlap example. -/
theorem exclusion_by_exact_sid_string_witness :
    ((∀ op ∈ remove_duplicate dlsW clsW,
       op.src ≠ ⟨"Data/cimis_hourly_data_hui", "54-foobar.csv"⟩) ↔
      sidOf "54-foobar.csv" ∈ clsW.map (fun c => sidOf c.base)) :=
  exclusion_by_exact_sid_string.1 dlsW clsW
    ⟨"Data/cimis_hourly_data_hui", "54-foobar.csv"⟩ (by decide) (by decide)
